import Mathlib

/-
Formal model of the `arkham-translator` repository.

The repository has two Python source files:
  * `src/converter.py`  — JSON → CSV conversion (`json_to_csv`);
  * `src/translator.py` — a translation pipeline with a SQLite cache,
    glossary substitution, retry-with-backoff around an external API call,
    and a rate limiter.

This file is a shallow embedding of that code.  Python values parsed from
JSON are modelled by `JValue`; Python dicts by insertion-ordered association
lists; the SQLite cache table by an association list keyed by the cache key
(the `created_at` wall-clock column is elided); the external `hashlib.sha1`
digest and the OpenAI client are external collaborators and are modelled as
function parameters.  Fallible code returns `Except`.
-/

set_option maxHeartbeats 1000000

namespace Arkham

/-- A JSON value as produced by Python's `json.load` / `json.loads`.
Python floats are modelled as rationals (field values are only ever passed
through verbatim, never computed with). -/
inductive JValue where
  | null
  | bool (b : Bool)
  | num (q : ℚ)
  | str (s : String)
  | arr (xs : List JValue)
  | obj (fields : List (String × JValue))

/-- A Python dict with string keys: an insertion-ordered association list. -/
abbrev Card := List (String × JValue)

/-- Python `d.get(key)` / `d[key]` lookup: the value at the first matching key. -/
def dictGet : Card → String → Option JValue
  | [], _ => none
  | (k, v) :: rest, key => if k = key then some v else dictGet rest key

/-- Python `d[key] = v`: update the value in place if the key is present,
otherwise append the binding at the end. -/
def dictSet : Card → String → JValue → Card
  | [], key, v => [(key, v)]
  | (k, w) :: rest, key, v =>
    if k = key then (key, v) :: rest else (k, w) :: dictSet rest key v

@[simp] theorem dictGet_nil (key : String) : dictGet [] key = none := rfl

theorem dictGet_dictSet (d : Card) (k k' : String) (v : JValue) :
    dictGet (dictSet d k v) k' = if k' = k then some v else dictGet d k' := by
  induction d with
  | nil =>
    by_cases h : k' = k
    · simp [dictSet, dictGet, h]
    · simp [dictSet, dictGet, h, Ne.symm h]
  | cons hd tl ih =>
    obtain ⟨k₀, v₀⟩ := hd
    by_cases h0 : k₀ = k
    · subst h0
      by_cases h : k' = k₀
      · simp [dictSet, dictGet, h]
      · simp [dictSet, dictGet, h, Ne.symm h]
    · by_cases h : k' = k₀
      · subst h
        simp [dictSet, dictGet, h0, Ne.symm h0]
      · simp [dictSet, dictGet, h0, h, Ne.symm h, ih]

/-- Python's default whitespace set for `str.strip()` (ASCII part; Unicode
whitespace is elided, no claim involves it). -/
def isPySpace (c : Char) : Bool :=
  c == ' ' || c == '\t' || c == '\n' || c == '\r' || c == '\x0b' || c == '\x0c'

/-- Python `s.strip()`: remove leading and trailing whitespace. -/
def pyStrip (s : String) : String :=
  ⟨((s.data.dropWhile isPySpace).reverse.dropWhile isPySpace).reverse⟩

/-- Python `name.endswith(suffix)`. -/
def endswith (name suffix : String) : Bool :=
  List.isSuffixOf suffix.data name.data

/-! ## `src/converter.py` -/

/-- `converter.py`: the fixed CSV column set (`FIELDS`). -/
def FIELDS : List String :=
  ["code", "name", "subname", "text", "traits", "flavor", "back_text", "back_flavor"]

/-- One CSV row extracted from a parsed JSON object:
`{field: item.get(field, "") for field in FIELDS}`, laid out in the fixed
column order used by the `csv.DictWriter`.  Cell values are kept as `JValue`
(the `csv` writer's final stringification is external formatting). -/
def rowCells (item : Card) : List JValue :=
  FIELDS.map (fun f => (dictGet item f).getD (.str ""))

/-- Extracting a row from one element of a parsed file.  A non-object element
has no `.get` method, so Python raises an uncaught `AttributeError` there;
this is the `.error` case. -/
def itemRow : JValue → Except String (List JValue)
  | .obj fs => .ok (rowCells fs)
  | _ => .error "AttributeError: object has no attribute get"

/-- The `for item in items` loop body of `json_to_csv`: one row per element,
in order, aborting at the first non-object element. -/
def itemRows : List JValue → Except String (List (List JValue))
  | [] => .ok []
  | v :: vs =>
    match itemRow v with
    | .error e => .error e
    | .ok r => (itemRows vs).map (fun rs => r :: rs)

/-- `converter.py`'s `json_to_csv`, modelled over the directory listing: a
list of `(filename, parse result)` pairs, where the parse result stands for
`json.load` on the file's contents.  The returned pair is the written CSV:
the header row (the fixed column set) and the data rows.  An `.error` result
models an uncaught exception: the run aborts and no CSV is written.
Branches, in source order: skip names not ending in `.json`; log and skip
invalid JSON; a dict contributes one row; a list contributes its elements'
rows (aborting on a non-object element); any other top-level value is logged
and skipped. -/
def json_to_csv :
    List (String × Except String JValue) → Except String (List String × List (List JValue))
  | [] => .ok (FIELDS, [])
  | (name, parsed) :: rest =>
    if endswith name ".json" then
      match parsed with
      | .error _ => json_to_csv rest
      | .ok (.obj fs) => (json_to_csv rest).map (fun c => (c.1, rowCells fs :: c.2))
      | .ok (.arr items) =>
        match itemRows items with
        | .error e => .error e
        | .ok rs => (json_to_csv rest).map (fun c => (c.1, rs ++ c.2))
      | .ok _ => json_to_csv rest
    else json_to_csv rest

/-! ## `src/translator.py`: constants and small helpers -/

/-- `translator.py`: `MAX_RETRIES = 5`. -/
def MAX_RETRIES : ℕ := 5

/-- `translator.py`: `RETRY_BACKOFF = 2.0` seconds (an exact rational). -/
def RETRY_BACKOFF : ℚ := 2

/-- `translator.py`: `TRANSLATABLE_FIELDS`. -/
def TRANSLATABLE_FIELDS : List String := ["name", "subname", "text", "flavor", "traits"]

/-- `translator.py`'s `is_empty(value)`:
`value is None or (isinstance(value, str) and value.strip() == "")`. -/
def is_empty : JValue → Bool
  | .null => true
  | .str s => pyStrip s == ""
  | _ => false

/-- Python `isinstance(value, str)`. -/
def isStr : JValue → Bool
  | .str _ => true
  | _ => false

/-- The skip test of `process_file`:
`if is_empty(src) or not isinstance(src, str)`. -/
def skipSrc (v : JValue) : Bool := is_empty v || !isStr v

/-- The string payload of a `JValue` known to be a string. -/
def asString : JValue → String
  | .str s => s
  | _ => ""

/-! ## Glossary substitution (`apply_glossary_post`)

The Python code runs `re.sub(r"(?<!\w)" + re.escape(en) + r"(?!\w)", pt, text)`
for each glossary pair, longest source terms first.  The regex is a literal
string guarded by word-boundary lookarounds; `re.sub` scans the subject left
to right and replaces non-overlapping matches.  `\w` is modelled on its ASCII
part (letters, digits, underscore); every term in the claims is ASCII. -/

/-- A word character as matched by `\w` (ASCII part). -/
def isWordChar (c : Char) : Bool := c.isAlphanum || c == '_'

/-- The `(?<!\w)` lookbehind: `none` is the start of the subject. -/
def prevOk : Option Char → Bool
  | none => true
  | some c => !isWordChar c

/-- The `(?!\w)` lookahead applied to the rest of the subject. -/
def nextOk : List Char → Bool
  | [] => true
  | c :: _ => !isWordChar c

/-- Whether the pattern `(?<!\w)en(?!\w)` matches at the current position
(`prev` is the character just before it).  An empty term never matches
(glossary terms are non-empty words). -/
def boundaryMatch (en : List Char) (prev : Option Char) (l : List Char) : Bool :=
  !en.isEmpty && l.take en.length == en && prevOk prev && nextOk (l.drop en.length)

/-- The left-to-right non-overlapping scan of `re.sub`.  `fuel` only bounds
the recursion; each step consumes at least one character, so `fuel ≥ l.length`
makes the bound inert (`subTerm` passes the subject's length). -/
def subTermAux (en pt : List Char) : ℕ → Option Char → List Char → List Char
  | 0, _, l => l
  | _ + 1, _, [] => []
  | fuel + 1, prev, c :: rest =>
    if boundaryMatch en prev (c :: rest) then
      pt ++ subTermAux en pt fuel en.getLast? (List.drop en.length (c :: rest))
    else
      c :: subTermAux en pt fuel (some c) rest

/-- One `re.sub(r"(?<!\w)" + re.escape(en) + r"(?!\w)", pt, text)` call. -/
def subTerm (en pt text : String) : String :=
  ⟨subTermAux en.data pt.data text.data.length none text.data⟩

/-- Whether `(?<!\w)en(?!\w)` matches anywhere in the subject, scanning every
position.  Used to state the word-boundary property of `subTerm`. -/
def hasMatchAux (en : List Char) : Option Char → List Char → Bool
  | _, [] => false
  | prev, c :: rest => boundaryMatch en prev (c :: rest) || hasMatchAux en (some c) rest

/-- Whether the boundary-guarded pattern for `en` matches anywhere in `text`. -/
def hasMatch (en text : String) : Bool :=
  hasMatchAux en.data none text.data

/-- Stable insertion step for sorting the glossary by descending source-term
length (Python's stable `sorted(..., key=lambda kv: len(kv[0]), reverse=True)`). -/
def insertDesc (x : String × String) : List (String × String) → List (String × String)
  | [] => [x]
  | y :: ys => if y.1.length ≤ x.1.length then x :: y :: ys else y :: insertDesc x ys

/-- `sorted(glossary.items(), key=lambda kv: len(kv[0]), reverse=True)`:
a stable sort by descending source-term length.  The glossary dict is
modelled as an insertion-ordered association list. -/
def sortGlossary : List (String × String) → List (String × String)
  | [] => []
  | x :: xs => insertDesc x (sortGlossary xs)

/-- A glossary: source term to target term, insertion-ordered. -/
abbrev Glossary := List (String × String)

/-- `translator.py`'s `apply_glossary_post(text, glossary)`: apply the
boundary-guarded substitution for each pair, longest source terms first. -/
def apply_glossary_post (text : String) (glossary : Glossary) : String :=
  (sortGlossary glossary).foldl (fun t kv => subTerm kv.1 kv.2 t) text

/-! ## Rate limiter -/

/-- `translator.py`'s `rate_limit_sleep(rate_per_minute, started_at, calls_made)`.
`time.time()` is passed in as `now`; the returned rational is the duration
handed to `time.sleep` (`0` when no sleep happens).  Mirrors:
`if rate_per_minute <= 0: return` and then a sleep of
`ideal_elapsed - actual_elapsed` when `ideal_elapsed > actual_elapsed`. -/
def rate_limit_sleep (rate_per_minute : ℤ) (started_at now : ℚ) (calls_made : ℕ) : ℚ :=
  if rate_per_minute ≤ 0 then 0
  else
    let ideal_elapsed : ℚ := (calls_made : ℚ) * (60 / (rate_per_minute : ℚ))
    let actual_elapsed : ℚ := now - started_at
    if actual_elapsed < ideal_elapsed then ideal_elapsed - actual_elapsed else 0

/-! ## Translation client (`translate_via_openai`) -/

/-- The observable outcome of one `translate_via_openai` call: the returned
text or the raised `RuntimeError`, the attempt numbers at which the external
service was called, and the `time.sleep` backoff durations, in order. -/
structure TransOut where
  result : Except String String
  tried : List ℕ
  sleeps : List ℚ

/-- The `for attempt in range(1, MAX_RETRIES + 1)` loop of
`translate_via_openai`.  `f attempt` is the external service's behaviour on
that attempt (the Responses/Chat-Completions fallback pair collapses to one
observable outcome per attempt): `.ok` returns immediately; `.error` records
the backoff sleep `RETRY_BACKOFF * 2 ** (attempt - 1)` and retries.  When the
loop fuel (initially `MAX_RETRIES`) runs out, the `RuntimeError` carrying the
last error is raised. -/
def translateLoop (f : ℕ → Except String String) :
    ℕ → ℕ → String → List ℕ → List ℚ → TransOut
  | 0, _, lastErr, tried, sleeps => ⟨.error lastErr, tried, sleeps⟩
  | fuel + 1, attempt, _, tried, sleeps =>
    match f attempt with
    | .ok s => ⟨.ok s, tried ++ [attempt], sleeps⟩
    | .error e =>
      translateLoop f fuel (attempt + 1) e (tried ++ [attempt])
        (sleeps ++ [RETRY_BACKOFF * 2 ^ (attempt - 1)])

/-- `translator.py`'s `translate_via_openai`, parametrised by the external
service's per-attempt behaviour. -/
def translate_via_openai (f : ℕ → Except String String) : TransOut :=
  translateLoop f MAX_RETRIES 1 "" [] []

/-! ## Cache (`class Cache`, SQLite-backed) -/

/-- One row of the SQLite `cache` table (the `created_at` wall-clock column
is elided: nothing reads it back). -/
structure CacheEntry where
  src : String
  tgt : String
  model : String

/-- The `cache` table: key-value rows keyed uniquely by `key`. -/
abbrev CacheMap := List (String × CacheEntry)

/-- `Cache.get(key)`: `SELECT tgt FROM cache WHERE key=?`. -/
def cacheGet : CacheMap → String → Option String
  | [], _ => none
  | (k, e) :: rest, key => if k = key then some e.tgt else cacheGet rest key

/-- `Cache.set(key, src, tgt, model)`: `INSERT OR REPLACE INTO cache`. -/
def cacheSet : CacheMap → String → String → String → String → CacheMap
  | [], key, src, tgt, model => [(key, ⟨src, tgt, model⟩)]
  | (k, e) :: rest, key, src, tgt, model =>
    if k = key then (key, ⟨src, tgt, model⟩) :: rest
    else (k, e) :: cacheSet rest key src tgt model

/-- Python truthiness of the fetched `Optional[str]`, as tested by
`if cached:` in `process_file`: `None` and the empty string are falsy. -/
def cacheHit : Option String → Bool
  | none => false
  | some t => !(t == "")

/-- The cache key of `process_file`: `sha1(f"{model}:{field}:{src}")`.
`hashlib.sha1(...).hexdigest()` is an external library function, passed in
as the parameter `sha1`. -/
def cacheKey (sha1 : String → String) (model field src : String) : String :=
  sha1 (model ++ ":" ++ field ++ ":" ++ src)

/-! ## Batch processor (`process_file`) -/

/-- One row of the audit CSV (`csv_rows.append({...})`).  `code` keeps the
raw `card.get("code", "")` value (Python's `str(...)` wrapper is external
formatting). -/
structure CsvRow where
  code : JValue
  field : String
  en : String
  pt : String
  pack_file : String

/-- The mutable state threaded through one `process_file` call, together
with instrumentation recording the effectful calls the Python code makes:
`lookups` records every `cache.get` key, `netCalls` every source text sent
to the external service, and `rateArgs` the `calls` counter value passed to
each `rate_limit_sleep` invocation. -/
structure RunState where
  cache : CacheMap
  calls : ℕ
  skipped : ℕ
  csvRows : List CsvRow
  lookups : List String
  netCalls : List String
  rateArgs : List ℕ

/-- The state at the top of `process_file`: `calls = 0`, `skipped = 0`,
empty `csv_rows`, the cache as loaded. -/
def initState (cache0 : CacheMap) : RunState :=
  ⟨cache0, 0, 0, [], [], [], []⟩

/-- The common tail of the field loop once `translated` is known
(lines 192–199): `card_out[f"{field}_pt"] = translated` and the audit-row
append.  The row reads `code` and the source text from the *input* card. -/
def finishField (card cardOut : Card) (st : RunState) (field s t pf : String) :
    Card × RunState :=
  (dictSet cardOut (field ++ "_pt") (.str t),
   { st with csvRows := st.csvRows ++ [⟨(dictGet card "code").getD (.str ""), field, s, t, pf⟩] })

/-- One iteration of `for field in TRANSLATABLE_FIELDS` (lines 175–199),
parametrised by the external `sha1` digest and by `tf`, the behaviour of
`translate_via_openai` on each source text (`.error` models the
`RuntimeError` it raises after exhausting its retries).  The wall-clock
duration of the `rate_limit_sleep` call depends on `time.time()` and is
external; the `calls` argument passed to it is recorded in `rateArgs`. -/
def processField (sha1 : String → String) (tf : String → Except String String)
    (model : String) (glossary : Glossary) (pf : String)
    (card cardOut : Card) (st : RunState) (field : String) :
    Except String (Card × RunState) :=
  let src := (dictGet card field).getD (.str "")
  if skipSrc src then
    .ok (cardOut, { st with skipped := st.skipped + 1 })
  else
    let s := asString src
    let key := cacheKey sha1 model field s
    let st1 := { st with lookups := st.lookups ++ [key] }
    let cached := cacheGet st1.cache key
    if cacheHit cached then
      .ok (finishField card cardOut st1 field s (cached.getD "") pf)
    else
      let st2 := { st1 with
        calls := st1.calls + 1
        rateArgs := st1.rateArgs ++ [st1.calls + 1]
        netCalls := st1.netCalls ++ [s] }
      match tf s with
      | .error e => .error e
      | .ok t0 =>
        let t := apply_glossary_post t0 glossary
        let st3 := { st2 with cache := cacheSet st2.cache key s t model }
        .ok (finishField card cardOut st3 field s t pf)

/-- The field loop over a given field list (the code runs it over
`TRANSLATABLE_FIELDS`); a raised `RuntimeError` propagates. -/
def processFields (sha1 : String → String) (tf : String → Except String String)
    (model : String) (glossary : Glossary) (pf : String) (card : Card) :
    List String → Card → RunState → Except String (Card × RunState)
  | [], cardOut, st => .ok (cardOut, st)
  | f :: fs, cardOut, st =>
    match processField sha1 tf model glossary pf card cardOut st f with
    | .error e => .error e
    | .ok (c', st') => processFields sha1 tf model glossary pf card fs c' st'

/-- One iteration of `for card in data`: `card_out = dict(card)` (a fresh
copy) followed by the field loop.  A non-dict list element makes
`dict(card)` raise an uncaught `TypeError`/`ValueError`. -/
def processCard (sha1 : String → String) (tf : String → Except String String)
    (model : String) (glossary : Glossary) (pf : String)
    (v : JValue) (st : RunState) : Except String (Card × RunState) :=
  match v with
  | .obj card => processFields sha1 tf model glossary pf card TRANSLATABLE_FIELDS card st
  | _ => .error "TypeError: cannot convert to dict"

/-- The card loop: output records are appended to `out_cards` in order. -/
def processCards (sha1 : String → String) (tf : String → Except String String)
    (model : String) (glossary : Glossary) (pf : String) :
    List JValue → List Card → RunState → Except String (List Card × RunState)
  | [], acc, st => .ok (acc, st)
  | v :: vs, acc, st =>
    match processCard sha1 tf model glossary pf v st with
    | .error e => .error e
    | .ok (c', st') => processCards sha1 tf model glossary pf vs (acc ++ [c']) st'

/-- The observable outcome of one `process_file` call.  The function's
Python return value is `{"translated": len(csv_rows), "skipped": skipped}`;
the JSON/CSV files it writes are `outCards` and `csvRows`. -/
structure FileResult where
  outCards : List Card
  csvRows : List CsvRow
  translated : ℕ
  skipped : ℕ
  cache : CacheMap
  calls : ℕ
  lookups : List String
  netCalls : List String
  rateArgs : List ℕ

/-- `translator.py`'s `process_file`, over the parse result of the input
file (`json.loads` of its text; `.error` models the read/parse failure that
is caught, logged, and answered with zero counts).  A non-list top level is
warned about and also answered with zero counts.  An uncaught
`RuntimeError` from the translation client aborts the whole call. -/
def process_file (sha1 : String → String) (tf : String → Except String String)
    (model : String) (glossary : Glossary) (pf : String)
    (cache0 : CacheMap) (parsed : Except String JValue) : Except String FileResult :=
  match parsed with
  | .error _ => .ok ⟨[], [], 0, 0, cache0, 0, [], [], []⟩
  | .ok (.arr data) =>
    match processCards sha1 tf model glossary pf data [] (initState cache0) with
    | .error e => .error e
    | .ok (cards, st) =>
      .ok ⟨cards, st.csvRows, st.csvRows.length, st.skipped, st.cache, st.calls,
           st.lookups, st.netCalls, st.rateArgs⟩
  | .ok _ => .ok ⟨[], [], 0, 0, cache0, 0, [], [], []⟩

/-! ## Path lemmas for `processField` -/

theorem skipSrc_eq_false_iff (v : JValue) :
    skipSrc v = false ↔ ∃ s, v = .str s ∧ (pyStrip s == "") = false := by
  cases v <;> simp [skipSrc, is_empty, isStr]

theorem processField_skip (sha1 : String → String) (tf : String → Except String String)
    (model : String) (glossary : Glossary) (pf : String)
    (card cardOut : Card) (st : RunState) (field : String)
    (h : skipSrc ((dictGet card field).getD (.str "")) = true) :
    processField sha1 tf model glossary pf card cardOut st field =
      .ok (cardOut, { st with skipped := st.skipped + 1 }) := by
  simp [processField, h]

theorem processField_hit (sha1 : String → String) (tf : String → Except String String)
    (model : String) (glossary : Glossary) (pf : String)
    (card cardOut : Card) (st : RunState) (field s t : String)
    (hs : (dictGet card field).getD (.str "") = .str s)
    (hsk : skipSrc (.str s) = false)
    (hc : cacheGet st.cache (cacheKey sha1 model field s) = some t)
    (ht : (t == "") = false) :
    processField sha1 tf model glossary pf card cardOut st field =
      .ok (finishField card cardOut
        { st with lookups := st.lookups ++ [cacheKey sha1 model field s] } field s t pf) := by
  simp [processField, hs, hsk, asString, hc, cacheHit, ht]

theorem processField_miss_err (sha1 : String → String) (tf : String → Except String String)
    (model : String) (glossary : Glossary) (pf : String)
    (card cardOut : Card) (st : RunState) (field s e : String)
    (hs : (dictGet card field).getD (.str "") = .str s)
    (hsk : skipSrc (.str s) = false)
    (hch : cacheHit (cacheGet st.cache (cacheKey sha1 model field s)) = false)
    (htf : tf s = .error e) :
    processField sha1 tf model glossary pf card cardOut st field = .error e := by
  simp [processField, hs, hsk, asString, hch, htf]

theorem processField_miss_ok (sha1 : String → String) (tf : String → Except String String)
    (model : String) (glossary : Glossary) (pf : String)
    (card cardOut : Card) (st : RunState) (field s t0 : String)
    (hs : (dictGet card field).getD (.str "") = .str s)
    (hsk : skipSrc (.str s) = false)
    (hch : cacheHit (cacheGet st.cache (cacheKey sha1 model field s)) = false)
    (htf : tf s = .ok t0) :
    processField sha1 tf model glossary pf card cardOut st field =
      .ok (finishField card cardOut
        { st with
            lookups := st.lookups ++ [cacheKey sha1 model field s]
            calls := st.calls + 1
            rateArgs := st.rateArgs ++ [st.calls + 1]
            netCalls := st.netCalls ++ [s]
            cache := cacheSet st.cache (cacheKey sha1 model field s) s
              (apply_glossary_post t0 glossary) model }
        field s (apply_glossary_post t0 glossary) pf) := by
  simp [processField, hs, hsk, asString, hch, htf]

/-! ## Word-boundary and ordering lemmas for the glossary pass -/

theorem subTermAux_no_match (en pt : List Char) (l : List Char) :
    ∀ (fuel : ℕ) (prev : Option Char), l.length ≤ fuel →
      hasMatchAux en prev l = false → subTermAux en pt fuel prev l = l := by
  induction l with
  | nil =>
    intro fuel prev _ _
    cases fuel <;> rfl
  | cons c rest ih =>
    intro fuel prev hlen hm
    cases fuel with
    | zero => simp at hlen
    | succ fuel =>
      rw [hasMatchAux, Bool.or_eq_false_iff] at hm
      obtain ⟨h1, h2⟩ := hm
      simp only [subTermAux, h1, Bool.false_eq_true, if_false, List.cons.injEq, true_and]
      exact ih fuel (some c) (by simpa using hlen) h2

theorem subTerm_no_match (en pt text : String) (h : hasMatch en text = false) :
    subTerm en pt text = text := by
  show String.mk (subTermAux en.data pt.data text.data.length none text.data) = text
  rw [subTermAux_no_match en.data pt.data text.data text.data.length none le_rfl h]

theorem mem_insertDesc {x y : String × String} {l : List (String × String)} :
    y ∈ insertDesc x l ↔ y = x ∨ y ∈ l := by
  induction l with
  | nil => simp [insertDesc]
  | cons z zs ih =>
    by_cases h : z.1.length ≤ x.1.length
    · simp only [insertDesc, h, if_true, List.mem_cons]
    · simp only [insertDesc, h, if_false, List.mem_cons, ih]
      tauto

theorem pairwise_insertDesc {x : String × String} {l : List (String × String)}
    (hl : l.Pairwise (fun a b => b.1.length ≤ a.1.length)) :
    (insertDesc x l).Pairwise (fun a b => b.1.length ≤ a.1.length) := by
  induction l with
  | nil => simp [insertDesc]
  | cons y ys ih =>
    rcases List.pairwise_cons.mp hl with ⟨hy, hys⟩
    by_cases h : y.1.length ≤ x.1.length
    · simp only [insertDesc, h, if_true]
      refine List.pairwise_cons.mpr ⟨?_, hl⟩
      intro z hz
      rcases List.mem_cons.mp hz with rfl | hz'
      · exact h
      · exact le_trans (hy z hz') h
    · simp only [insertDesc, h, if_false]
      refine List.pairwise_cons.mpr ⟨?_, ih hys⟩
      intro z hz
      rcases mem_insertDesc.mp hz with rfl | hz'
      · exact le_of_lt (lt_of_not_le h)
      · exact hy z hz'

theorem insertDesc_perm (x : String × String) (l : List (String × String)) :
    (insertDesc x l).Perm (x :: l) := by
  induction l with
  | nil => simp [insertDesc]
  | cons y ys ih =>
    by_cases h : y.1.length ≤ x.1.length
    · simp [insertDesc, h]
    · simp only [insertDesc, h, if_false]
      exact (ih.cons y).trans (List.Perm.swap x y ys)

theorem sortGlossary_pairwise (g : Glossary) :
    (sortGlossary g).Pairwise (fun a b => b.1.length ≤ a.1.length) := by
  induction g with
  | nil => simp [sortGlossary]
  | cons x xs ih => exact pairwise_insertDesc ih

theorem sortGlossary_perm (g : Glossary) : (sortGlossary g).Perm g := by
  induction g with
  | nil => simp [sortGlossary]
  | cons x xs ih =>
    exact (insertDesc_perm x (sortGlossary xs)).trans (ih.cons x)

/-- C3: `apply_glossary_post` replaces a glossary term only at occurrences
not adjacent to a word character on either side — in particular, if the
boundary-guarded pattern for a term matches nowhere in a text, that text is
left unchanged, and "Doom" is never replaced inside "Doomsday" — and the
substitutions are applied for all glossary pairs in longest-source-term-first
order, so a shorter term does not pre-empt a longer overlapping term
("Chaos Bag" wins over "Chaos"). -/
theorem c3_glossary_word_boundaries :
    (∀ en pt text, hasMatch en text = false → subTerm en pt text = text) ∧
    (∀ g : Glossary, (sortGlossary g).Pairwise (fun a b => b.1.length ≤ a.1.length)) ∧
    (∀ g : Glossary, (sortGlossary g).Perm g) ∧
    apply_glossary_post "Doomsday brings Doom." [("Doom", "Perdição")] =
      "Doomsday brings Perdição." ∧
    apply_glossary_post "Chaos Bag" [("Chaos", "Caos"), ("Chaos Bag", "Saco do Caos")] =
      "Saco do Caos" :=
  ⟨subTerm_no_match, sortGlossary_pairwise, sortGlossary_perm, by decide, by decide⟩

/-- Witness for C3: the term "Doom" has no boundary-respecting occurrence in
"Doomsday", so the substitution leaves "Doomsday" unchanged. -/
theorem c3_witness : subTerm "Doom" "Perdição" "Doomsday" = "Doomsday" :=
  c3_glossary_word_boundaries.1 "Doom" "Perdição" "Doomsday" (by decide)

theorem cacheHit_eq_true_iff (o : Option String) :
    cacheHit o = true ↔ ∃ t, o = some t ∧ (t == "") = false := by
  cases o <;> simp [cacheHit]

/-- Exhaustive description of a successful `processField` call: it took the
skip branch, the cache-hit branch, or the translate-and-store branch, and in
each case the output record and the state are the stated updates of the
inputs. -/
theorem processField_ok_spec (sha1 : String → String) (tf : String → Except String String)
    (model : String) (glossary : Glossary) (pf : String)
    (card cardOut : Card) (st : RunState) (field : String) (c' : Card) (st' : RunState)
    (h : processField sha1 tf model glossary pf card cardOut st field = .ok (c', st')) :
    (skipSrc ((dictGet card field).getD (.str "")) = true ∧
      c' = cardOut ∧ st' = { st with skipped := st.skipped + 1 }) ∨
    (∃ s t, (dictGet card field).getD (.str "") = .str s ∧ skipSrc (.str s) = false ∧
      cacheGet st.cache (cacheKey sha1 model field s) = some t ∧ (t == "") = false ∧
      c' = dictSet cardOut (field ++ "_pt") (.str t) ∧
      st' = { st with
        lookups := st.lookups ++ [cacheKey sha1 model field s]
        csvRows := st.csvRows ++ [⟨(dictGet card "code").getD (.str ""), field, s, t, pf⟩] }) ∨
    (∃ s t0, (dictGet card field).getD (.str "") = .str s ∧ skipSrc (.str s) = false ∧
      cacheHit (cacheGet st.cache (cacheKey sha1 model field s)) = false ∧
      tf s = .ok t0 ∧
      c' = dictSet cardOut (field ++ "_pt") (.str (apply_glossary_post t0 glossary)) ∧
      st' = { st with
        lookups := st.lookups ++ [cacheKey sha1 model field s]
        calls := st.calls + 1
        rateArgs := st.rateArgs ++ [st.calls + 1]
        netCalls := st.netCalls ++ [s]
        cache := cacheSet st.cache (cacheKey sha1 model field s) s
          (apply_glossary_post t0 glossary) model
        csvRows := st.csvRows ++ [⟨(dictGet card "code").getD (.str ""), field, s,
          apply_glossary_post t0 glossary, pf⟩] }) := by
  cases hskip : skipSrc ((dictGet card field).getD (.str "")) with
  | true =>
    rw [processField_skip sha1 tf model glossary pf card cardOut st field hskip] at h
    injection h with h'
    injection h' with h1 h2
    exact Or.inl ⟨rfl, h1.symm, h2.symm⟩
  | false =>
    obtain ⟨s, hsrc, _⟩ := (skipSrc_eq_false_iff _).mp hskip
    have hsk : skipSrc (.str s) = false := hsrc ▸ hskip
    cases hch : cacheHit (cacheGet st.cache (cacheKey sha1 model field s)) with
    | true =>
      obtain ⟨t, hcg, ht⟩ := (cacheHit_eq_true_iff _).mp hch
      rw [processField_hit sha1 tf model glossary pf card cardOut st field s t
        hsrc hsk hcg ht] at h
      injection h with h'
      injection h' with h1 h2
      refine Or.inr (Or.inl ⟨s, t, hsrc, hsk, hcg, ht, h1.symm, ?_⟩)
      rw [← h2]
    | false =>
      cases htf : tf s with
      | error e =>
        rw [processField_miss_err sha1 tf model glossary pf card cardOut st field s e
          hsrc hsk hch htf] at h
        exact Except.noConfusion h
      | ok t0 =>
        rw [processField_miss_ok sha1 tf model glossary pf card cardOut st field s t0
          hsrc hsk hch htf] at h
        injection h with h'
        injection h' with h1 h2
        refine Or.inr (Or.inr ⟨s, t0, hsrc, hsk, hch, htf, h1.symm, ?_⟩)
        rw [← h2]

/-! ## Counting skips and network calls through the loops -/

/-- Specification-side count: how many of the given fields of a card are
skippable (absent, non-string, or blank after trimming). -/
def skipCountFields (card : Card) : List String → ℕ
  | [] => 0
  | f :: fs =>
    (if skipSrc ((dictGet card f).getD (.str "")) then 1 else 0) + skipCountFields card fs

/-- Specification-side count of empty/missing translatable fields across a
file's records. -/
def dataSkipCount : List JValue → ℕ
  | [] => 0
  | v :: vs =>
    (match v with
     | .obj card => skipCountFields card TRANSLATABLE_FIELDS
     | _ => 0) + dataSkipCount vs

theorem processField_skipped {sha1 : String → String} {tf : String → Except String String}
    {model : String} {glossary : Glossary} {pf : String}
    {card cardOut : Card} {st : RunState} {field : String} {c' : Card} {st' : RunState}
    (h : processField sha1 tf model glossary pf card cardOut st field = .ok (c', st')) :
    st'.skipped = st.skipped +
      (if skipSrc ((dictGet card field).getD (.str "")) then 1 else 0) := by
  rcases processField_ok_spec sha1 tf model glossary pf card cardOut st field c' st' h with
    ⟨hs, _, hst⟩ | ⟨s, t, hsrc, hsk, _, _, _, hst⟩ | ⟨s, t0, hsrc, hsk, _, _, _, hst⟩
  · subst hst; simp [hs]
  · subst hst; simp [hsrc, hsk]
  · subst hst; simp [hsrc, hsk]

theorem processField_rateArgs_inv {sha1 : String → String} {tf : String → Except String String}
    {model : String} {glossary : Glossary} {pf : String}
    {card cardOut : Card} {st : RunState} {field : String} {c' : Card} {st' : RunState}
    (h : processField sha1 tf model glossary pf card cardOut st field = .ok (c', st'))
    (hinv : st.rateArgs = List.range' 1 st.calls) :
    st'.rateArgs = List.range' 1 st'.calls := by
  rcases processField_ok_spec sha1 tf model glossary pf card cardOut st field c' st' h with
    ⟨_, _, hst⟩ | ⟨s, t, _, _, _, _, _, hst⟩ | ⟨s, t0, _, _, _, _, _, hst⟩ <;>
    subst hst <;> simp [hinv, List.range'_concat, Nat.add_comm]

theorem processFields_skipped {sha1 : String → String} {tf : String → Except String String}
    {model : String} {glossary : Glossary} {pf : String} {card : Card} :
    ∀ (fields : List String) (cardOut : Card) (st : RunState) (c' : Card) (st' : RunState),
      processFields sha1 tf model glossary pf card fields cardOut st = .ok (c', st') →
      st'.skipped = st.skipped + skipCountFields card fields := by
  intro fields
  induction fields with
  | nil =>
    intro cardOut st c' st' h
    injection h with h'
    injection h' with h1 h2
    rw [← h2, skipCountFields]
    omega
  | cons f fs ih =>
    intro cardOut st c' st' h
    rw [processFields] at h
    cases hpf : processField sha1 tf model glossary pf card cardOut st f with
    | error e => rw [hpf] at h; exact Except.noConfusion h
    | ok p =>
      obtain ⟨c1, st1⟩ := p
      rw [hpf] at h
      have h1 := processField_skipped hpf
      have h2 := ih c1 st1 c' st' h
      rw [h2, h1, skipCountFields]
      omega

theorem processFields_rateArgs_inv {sha1 : String → String} {tf : String → Except String String}
    {model : String} {glossary : Glossary} {pf : String} {card : Card} :
    ∀ (fields : List String) (cardOut : Card) (st : RunState) (c' : Card) (st' : RunState),
      processFields sha1 tf model glossary pf card fields cardOut st = .ok (c', st') →
      st.rateArgs = List.range' 1 st.calls →
      st'.rateArgs = List.range' 1 st'.calls := by
  intro fields
  induction fields with
  | nil =>
    intro cardOut st c' st' h hinv
    injection h with h'
    injection h' with h1 h2
    rw [← h2]
    exact hinv
  | cons f fs ih =>
    intro cardOut st c' st' h hinv
    rw [processFields] at h
    cases hpf : processField sha1 tf model glossary pf card cardOut st f with
    | error e => rw [hpf] at h; exact Except.noConfusion h
    | ok p =>
      obtain ⟨c1, st1⟩ := p
      rw [hpf] at h
      exact ih c1 st1 c' st' h (processField_rateArgs_inv hpf hinv)

theorem processCards_skipped {sha1 : String → String} {tf : String → Except String String}
    {model : String} {glossary : Glossary} {pf : String} :
    ∀ (data : List JValue) (acc : List Card) (st : RunState) (cs : List Card) (st' : RunState),
      processCards sha1 tf model glossary pf data acc st = .ok (cs, st') →
      st'.skipped = st.skipped + dataSkipCount data := by
  intro data
  induction data with
  | nil =>
    intro acc st cs st' h
    injection h with h'
    injection h' with h1 h2
    rw [← h2, dataSkipCount]
    omega
  | cons v vs ih =>
    intro acc st cs st' h
    rw [processCards] at h
    cases hpc : processCard sha1 tf model glossary pf v st with
    | error e => rw [hpc] at h; exact Except.noConfusion h
    | ok p =>
      obtain ⟨c1, st1⟩ := p
      rw [hpc] at h
      have h2 := ih (acc ++ [c1]) st1 cs st' h
      cases v with
      | obj card =>
        have h1 := processFields_skipped TRANSLATABLE_FIELDS card st c1 st1 hpc
        rw [h2, h1, dataSkipCount]
        omega
      | null => exact Except.noConfusion hpc
      | bool b => exact Except.noConfusion hpc
      | num q => exact Except.noConfusion hpc
      | str s => exact Except.noConfusion hpc
      | arr xs => exact Except.noConfusion hpc

theorem processCards_rateArgs_inv {sha1 : String → String} {tf : String → Except String String}
    {model : String} {glossary : Glossary} {pf : String} :
    ∀ (data : List JValue) (acc : List Card) (st : RunState) (cs : List Card) (st' : RunState),
      processCards sha1 tf model glossary pf data acc st = .ok (cs, st') →
      st.rateArgs = List.range' 1 st.calls →
      st'.rateArgs = List.range' 1 st'.calls := by
  intro data
  induction data with
  | nil =>
    intro acc st cs st' h hinv
    injection h with h'
    injection h' with h1 h2
    rw [← h2]
    exact hinv
  | cons v vs ih =>
    intro acc st cs st' h hinv
    rw [processCards] at h
    cases hpc : processCard sha1 tf model glossary pf v st with
    | error e => rw [hpc] at h; exact Except.noConfusion h
    | ok p =>
      obtain ⟨c1, st1⟩ := p
      rw [hpc] at h
      refine ih (acc ++ [c1]) st1 cs st' h ?_
      cases v with
      | obj card => exact processFields_rateArgs_inv TRANSLATABLE_FIELDS card st c1 st1 hpc hinv
      | null => exact Except.noConfusion hpc
      | bool b => exact Except.noConfusion hpc
      | num q => exact Except.noConfusion hpc
      | str s => exact Except.noConfusion hpc
      | arr xs => exact Except.noConfusion hpc

/-! ## Claims C6, C4, C10 -/

/-- C6: a translatable field that is absent, non-string, or blank after
trimming is counted as skipped and nothing else happens — the state change
is exactly `skipped + 1`, so there is no cache lookup, no network call, no
`<field>_pt` key and no audit row — and a file run that completes has a
skipped count equal to the number of empty/missing translatable fields
across its records. -/
theorem c6_skip_semantics :
    (∀ (sha1 : String → String) (tf : String → Except String String)
       (model : String) (glossary : Glossary) (pf : String)
       (card cardOut : Card) (st : RunState) (field : String),
       skipSrc ((dictGet card field).getD (.str "")) = true →
       processField sha1 tf model glossary pf card cardOut st field =
         .ok (cardOut, { st with skipped := st.skipped + 1 })) ∧
    (∀ (sha1 : String → String) (tf : String → Except String String)
       (model : String) (glossary : Glossary) (pf : String)
       (cache0 : CacheMap) (data : List JValue) (res : FileResult),
       process_file sha1 tf model glossary pf cache0 (.ok (.arr data)) = .ok res →
       res.skipped = dataSkipCount data) := by
  constructor
  · exact processField_skip
  · intro sha1 tf model glossary pf cache0 data res h
    simp only [process_file] at h
    cases hpc : processCards sha1 tf model glossary pf data [] (initState cache0) with
    | error e => rw [hpc] at h; exact Except.noConfusion h
    | ok p =>
      obtain ⟨cards, st⟩ := p
      rw [hpc] at h
      injection h with h'
      have hs := processCards_skipped data [] (initState cache0) cards st hpc
      rw [← h']
      simpa [initState] using hs

/-- Witness for C6: a record with no `name` key skips that field with
exactly a skip-count bump, and a two-record file (one blank `name`, one
empty record) reports a skipped count equal to the number of empty/missing
translatable fields. -/
theorem c6_witness :
    processField (fun s => s) (fun _ => .error "offline") "m" [] "p" [] []
        (initState []) "name" = .ok ([], { initState [] with skipped := 1 }) ∧
    (process_file (fun s => s) (fun _ => .error "offline") "m" [] "p" []
        (.ok (.arr [.obj [("name", .str "  ")], .obj []]))).toOption.map FileResult.skipped =
      some (dataSkipCount [.obj [("name", .str "  ")], .obj []]) := by
  constructor
  · exact c6_skip_semantics.1 (fun s => s) (fun _ => .error "offline") "m" [] "p" [] []
      (initState []) "name" (by decide)
  · exact congrArg some (c6_skip_semantics.2 (fun s => s) (fun _ => .error "offline")
      "m" [] "p" [] [.obj [("name", .str "  ")], .obj []] _ rfl)

/-- C4 (amended): before each network call the code sleeps exactly long
enough that the elapsed wall-clock time since the batch started is at least
`calls_made * (60 / rate_per_minute)`, where `calls_made` counts the network
calls *including the one about to be made* — `process_file` increments its
`calls` counter before invoking `rate_limit_sleep`, so the k-th network call
passes `calls_made = k`; if the elapsed time already meets that bound, no
sleep occurs. -/
theorem c4_rate_limit_sleep_bound :
    (∀ (rate : ℤ) (started now : ℚ) (calls : ℕ), 0 < rate →
       started + (calls : ℚ) * (60 / (rate : ℚ)) ≤ now + rate_limit_sleep rate started now calls ∧
       (started + (calls : ℚ) * (60 / (rate : ℚ)) ≤ now →
         rate_limit_sleep rate started now calls = 0) ∧
       rate_limit_sleep rate started now calls =
         max 0 ((calls : ℚ) * (60 / (rate : ℚ)) - (now - started))) ∧
    (∀ (sha1 : String → String) (tf : String → Except String String)
       (model : String) (glossary : Glossary) (pf : String)
       (cache0 : CacheMap) (parsed : Except String JValue) (res : FileResult),
       process_file sha1 tf model glossary pf cache0 parsed = .ok res →
       res.rateArgs = List.range' 1 res.calls) := by
  constructor
  · intro rate started now calls hrate
    have hr0 : ¬ rate ≤ 0 := not_le.mpr hrate
    simp only [rate_limit_sleep, hr0, if_false]
    by_cases hlt : now - started < (calls : ℚ) * (60 / (rate : ℚ))
    · rw [if_pos hlt]
      exact ⟨by linarith, fun hc => absurd hlt (by linarith),
        by rw [max_eq_right (by linarith)]⟩
    · rw [if_neg hlt]
      push_neg at hlt
      exact ⟨by linarith, fun _ => rfl, by rw [max_eq_left (by linarith)]⟩
  · intro sha1 tf model glossary pf cache0 parsed res h
    cases parsed with
    | error e =>
      simp only [process_file] at h
      injection h with h'
      rw [← h']
      rfl
    | ok v =>
      cases v with
      | arr data =>
        simp only [process_file] at h
        cases hpc : processCards sha1 tf model glossary pf data [] (initState cache0) with
        | error e => rw [hpc] at h; exact Except.noConfusion h
        | ok p =>
          obtain ⟨cards, st⟩ := p
          rw [hpc] at h
          injection h with h'
          have hinv := processCards_rateArgs_inv data [] (initState cache0) cards st hpc rfl
          rw [← h']
          exact hinv
      | null => simp only [process_file] at h; injection h with h'; rw [← h']; rfl
      | bool b => simp only [process_file] at h; injection h with h'; rw [← h']; rfl
      | num q => simp only [process_file] at h; injection h with h'; rw [← h']; rfl
      | str s => simp only [process_file] at h; injection h with h'; rw [← h']; rfl
      | obj fs => simp only [process_file] at h; injection h with h'; rw [← h']; rfl

/-- Counterexample for C4 as stated: at the very first network call no call
has completed yet, so with `calls_made` read as "calls made so far" the
claimed bound is `0 * (60/30) = 0` and the elapsed time `0` already meets
it — the claim says no sleep occurs — yet the code (which passes the
pre-incremented counter `1`) sleeps 2 seconds. -/
theorem c4_counterexample :
    (0 : ℚ) - 0 ≥ ((0 : ℕ) : ℚ) * (60 / ((30 : ℤ) : ℚ)) ∧
    rate_limit_sleep 30 0 0 1 = 2 ∧
    rate_limit_sleep 30 0 0 1 ≠ 0 := by
  refine ⟨by norm_num, ?_, ?_⟩ <;> norm_num [rate_limit_sleep]

/-- Witness for C4: with a 30-per-minute limit, before the first network
call (counter value 1) the post-sleep elapsed time is at least `60/30`, and
an empty file records rate-limiter counter values `[1, .., calls]` (here
none). -/
theorem c4_witness :
    (0 : ℚ) + ((1 : ℕ) : ℚ) * (60 / ((30 : ℤ) : ℚ)) ≤ 0 + rate_limit_sleep 30 0 0 1 ∧
    (process_file (fun s => s) (fun _ => .error "offline") "m" [] "p" []
        (.ok (.arr []))).toOption.map FileResult.rateArgs = some (List.range' 1 0) := by
  constructor
  · exact (c4_rate_limit_sleep_bound.1 30 0 0 1 (by norm_num)).1
  · exact congrArg some (c4_rate_limit_sleep_bound.2 (fun s => s) (fun _ => .error "offline")
      "m" [] "p" [] (.ok (.arr [])) _ rfl)

/-- C10: a rate limit of zero or below makes `rate_limit_sleep` return
immediately without sleeping, disabling rate limiting entirely. -/
theorem c10_nonpositive_rate_disables :
    ∀ (rate : ℤ), rate ≤ 0 →
      ∀ (started now : ℚ) (calls : ℕ), rate_limit_sleep rate started now calls = 0 := by
  intro rate h started now calls
  simp [rate_limit_sleep, h]

/-- Witness for C10 at rate 0 and at a negative rate. -/
theorem c10_witness :
    rate_limit_sleep 0 5 9 3 = 0 ∧ rate_limit_sleep (-7) 0 100 42 = 0 :=
  ⟨c10_nonpositive_rate_disables 0 (by norm_num) 5 9 3,
   c10_nonpositive_rate_disables (-7) (by norm_num) 0 100 42⟩

/-! ## Retry exhaustion (claim C2) -/

theorem translateLoop_all_fail (f : ℕ → Except String String) :
    ∀ (fuel attempt : ℕ) (lastE : String) (tried : List ℕ) (sleeps : List ℚ),
      (∀ a, attempt ≤ a → a < attempt + fuel → ∃ e, f a = .error e) →
      ∃ e, translateLoop f fuel attempt lastE tried sleeps =
        ⟨.error e, tried ++ List.range' attempt fuel,
         sleeps ++ (List.range' attempt fuel).map (fun a => RETRY_BACKOFF * 2 ^ (a - 1))⟩ := by
  intro fuel
  induction fuel with
  | zero =>
    intro attempt lastE tried sleeps _
    exact ⟨lastE, by simp [translateLoop]⟩
  | succ fuel ih =>
    intro attempt lastE tried sleeps hf
    obtain ⟨e, he⟩ := hf attempt le_rfl (by omega)
    obtain ⟨e', he'⟩ := ih (attempt + 1) e (tried ++ [attempt])
      (sleeps ++ [RETRY_BACKOFF * 2 ^ (attempt - 1)])
      (fun a h1 h2 => hf a (by omega) (by omega))
    refine ⟨e', ?_⟩
    rw [translateLoop, he]
    show translateLoop f fuel (attempt + 1) e (tried ++ [attempt])
      (sleeps ++ [RETRY_BACKOFF * 2 ^ (attempt - 1)]) = _
    rw [he']
    simp [List.range'_succ]

theorem translateLoop_error_all_fail (f : ℕ → Except String String) :
    ∀ (fuel attempt : ℕ) (lastE : String) (tried : List ℕ) (sleeps : List ℚ) (e : String),
      (translateLoop f fuel attempt lastE tried sleeps).result = .error e →
      ∀ a, attempt ≤ a → a < attempt + fuel → ∃ e', f a = .error e' := by
  intro fuel
  induction fuel with
  | zero =>
    intro attempt lastE tried sleeps e _ a h1 h2
    omega
  | succ fuel ih =>
    intro attempt lastE tried sleeps e h a h1 h2
    cases hfa : f attempt with
    | ok s =>
      rw [translateLoop, hfa] at h
      exact Except.noConfusion h
    | error e0 =>
      by_cases ha : a = attempt
      · exact ⟨e0, ha ▸ hfa⟩
      · rw [translateLoop, hfa] at h
        exact ih (attempt + 1) e0 (tried ++ [attempt])
          (sleeps ++ [RETRY_BACKOFF * 2 ^ (attempt - 1)]) e h a (by omega) (by omega)

/-- Whether processing a given field would reach the network-call branch:
the source value is not skippable and its cache lookup is falsy. -/
def fieldTriggers (sha1 : String → String) (model : String) (cache : CacheMap)
    (card : Card) (field : String) : Bool :=
  !skipSrc ((dictGet card field).getD (.str "")) &&
    !cacheHit (cacheGet cache
      (cacheKey sha1 model field (asString ((dictGet card field).getD (.str "")))))

/-- Whether any translatable field of the card would reach the network-call
branch. -/
def cardTriggers (sha1 : String → String) (model : String) (cache : CacheMap)
    (card : Card) : Bool :=
  TRANSLATABLE_FIELDS.any (fieldTriggers sha1 model cache card)

theorem processFields_no_trigger {sha1 : String → String} {tf : String → Except String String}
    {model : String} {glossary : Glossary} {pf : String} (card : Card) :
    ∀ (fields : List String) (cardOut : Card) (st : RunState),
      fields.any (fieldTriggers sha1 model st.cache card) = false →
      ∃ c' st', processFields sha1 tf model glossary pf card fields cardOut st = .ok (c', st') ∧
        st'.cache = st.cache := by
  intro fields
  induction fields with
  | nil =>
    intro cardOut st _
    exact ⟨cardOut, st, rfl, rfl⟩
  | cons f fs ih =>
    intro cardOut st hany
    rw [List.any_cons, Bool.or_eq_false_iff] at hany
    obtain ⟨hf, hfs⟩ := hany
    cases hskip : skipSrc ((dictGet card f).getD (.str "")) with
    | true =>
      have heq := processField_skip sha1 tf model glossary pf card cardOut st f hskip
      obtain ⟨c', st', hrun, hc⟩ := ih cardOut { st with skipped := st.skipped + 1 } hfs
      exact ⟨c', st', by rw [processFields, heq]; exact hrun, hc⟩
    | false =>
      have hhit : cacheHit (cacheGet st.cache (cacheKey sha1 model f
          (asString ((dictGet card f).getD (.str ""))))) = true := by
        revert hf
        simp [fieldTriggers, hskip]
      obtain ⟨s, hsrc, _⟩ := (skipSrc_eq_false_iff _).mp hskip
      rw [hsrc] at hhit
      obtain ⟨t, hcg, ht⟩ := (cacheHit_eq_true_iff _).mp hhit
      have heq := processField_hit sha1 tf model glossary pf card cardOut st f s t
        hsrc (hsrc ▸ hskip) hcg ht
      obtain ⟨c', st', hrun, hc⟩ := ih (dictSet cardOut (f ++ "_pt") (.str t))
        { st with
            lookups := st.lookups ++ [cacheKey sha1 model f s]
            csvRows := st.csvRows ++ [⟨(dictGet card "code").getD (.str ""), f, s, t, pf⟩] } hfs
      exact ⟨c', st', by rw [processFields, heq]; exact hrun, hc⟩

theorem processFields_trigger_err {sha1 : String → String} {tf : String → Except String String}
    {model : String} {glossary : Glossary} {pf : String} (card : Card)
    (htf : ∀ s, ∃ e, tf s = .error e) :
    ∀ (fields : List String) (cardOut : Card) (st : RunState),
      fields.any (fieldTriggers sha1 model st.cache card) = true →
      ∃ e, processFields sha1 tf model glossary pf card fields cardOut st = .error e := by
  intro fields
  induction fields with
  | nil =>
    intro cardOut st h
    simp at h
  | cons f fs ih =>
    intro cardOut st hany
    cases hft : fieldTriggers sha1 model st.cache card f with
    | true =>
      rw [fieldTriggers, Bool.and_eq_true, Bool.not_eq_true', Bool.not_eq_true'] at hft
      obtain ⟨hskip, hmiss⟩ := hft
      obtain ⟨s, hsrc, _⟩ := (skipSrc_eq_false_iff _).mp hskip
      rw [hsrc] at hmiss
      obtain ⟨e, he⟩ := htf s
      have heq := processField_miss_err sha1 tf model glossary pf card cardOut st f s e
        hsrc (hsrc ▸ hskip) hmiss he
      exact ⟨e, by rw [processFields, heq]⟩
    | false =>
      have hany' : fs.any (fieldTriggers sha1 model st.cache card) = true := by
        revert hany
        simp [List.any_cons, hft]
      cases hskip : skipSrc ((dictGet card f).getD (.str "")) with
      | true =>
        have heq := processField_skip sha1 tf model glossary pf card cardOut st f hskip
        obtain ⟨e, he⟩ := ih cardOut { st with skipped := st.skipped + 1 } hany'
        exact ⟨e, by rw [processFields, heq]; exact he⟩
      | false =>
        have hhit : cacheHit (cacheGet st.cache (cacheKey sha1 model f
            (asString ((dictGet card f).getD (.str ""))))) = true := by
          revert hft
          simp [fieldTriggers, hskip]
        obtain ⟨s, hsrc, _⟩ := (skipSrc_eq_false_iff _).mp hskip
        rw [hsrc] at hhit
        obtain ⟨t, hcg, ht⟩ := (cacheHit_eq_true_iff _).mp hhit
        have heq := processField_hit sha1 tf model glossary pf card cardOut st f s t
          hsrc (hsrc ▸ hskip) hcg ht
        obtain ⟨e, he⟩ := ih (dictSet cardOut (f ++ "_pt") (.str t))
          { st with
              lookups := st.lookups ++ [cacheKey sha1 model f s]
              csvRows := st.csvRows ++ [⟨(dictGet card "code").getD (.str ""), f, s, t, pf⟩] } hany'
        exact ⟨e, by rw [processFields, heq]; exact he⟩

theorem processCards_trigger_err {sha1 : String → String} {tf : String → Except String String}
    {model : String} {glossary : Glossary} {pf : String}
    (htf : ∀ s, ∃ e, tf s = .error e) :
    ∀ (data : List JValue) (acc : List Card) (st : RunState),
      (∀ v ∈ data, ∃ c, v = JValue.obj c) →
      (∃ v ∈ data, ∃ c, v = JValue.obj c ∧ cardTriggers sha1 model st.cache c = true) →
      ∃ e, processCards sha1 tf model glossary pf data acc st = .error e := by
  intro data
  induction data with
  | nil =>
    intro acc st _ hex
    simp at hex
  | cons v vs ih =>
    intro acc st hobj hex
    obtain ⟨c, hc⟩ := hobj v (List.mem_cons_self v vs)
    subst hc
    cases hct : cardTriggers sha1 model st.cache c with
    | true =>
      obtain ⟨e, he⟩ := processFields_trigger_err c htf TRANSLATABLE_FIELDS c st hct
      exact ⟨e, by rw [processCards, processCard, he]⟩
    | false =>
      obtain ⟨c1, st1, hrun, hcache⟩ :=
        processFields_no_trigger c TRANSLATABLE_FIELDS c st hct
      have hex' : ∃ v ∈ vs, ∃ cc, v = JValue.obj cc ∧
          cardTriggers sha1 model st1.cache cc = true := by
        rw [hcache]
        obtain ⟨w, hw, cc, hwc, hcc⟩ := hex
        rcases List.mem_cons.mp hw with rfl | hw'
        · injection hwc with hcceq
          rw [← hcceq] at hcc
          rw [hcc] at hct
          exact absurd hct (by simp)
        · exact ⟨w, hw', cc, hwc, hcc⟩
      obtain ⟨e, he⟩ := ih (acc ++ [c1]) st1 (fun w hw => hobj w (List.mem_cons_of_mem _ hw)) hex'
      exact ⟨e, by rw [processCards, processCard, hrun]; exact he⟩

/-- C2: when every attempt to call the external service fails,
`translate_via_openai` makes exactly `MAX_RETRIES = 5` attempts, sleeping
`RETRY_BACKOFF * 2^(attempt-1)` after each failed attempt — a strictly
increasing backoff — and only then raises the terminal error (conversely, a
terminal error implies all five attempts failed); that uncaught error makes
the enclosing `process_file` call abort whenever some record has a field
that reaches the network-call branch. -/
theorem c2_retry_exhaustion :
    MAX_RETRIES = 5 ∧
    (∀ f : ℕ → Except String String,
      (∀ a, 1 ≤ a → a ≤ MAX_RETRIES → ∃ e, f a = .error e) →
      (∃ e, (translate_via_openai f).result = .error e) ∧
      (translate_via_openai f).tried = [1, 2, 3, 4, 5] ∧
      (translate_via_openai f).sleeps = [2, 4, 8, 16, 32] ∧
      (translate_via_openai f).sleeps =
        (List.range' 1 MAX_RETRIES).map (fun a => RETRY_BACKOFF * 2 ^ (a - 1)) ∧
      List.Chain' (· < ·) (translate_via_openai f).sleeps) ∧
    (∀ (f : ℕ → Except String String) (e : String),
      (translate_via_openai f).result = .error e →
      ∀ a, 1 ≤ a → a ≤ MAX_RETRIES → ∃ e', f a = .error e') ∧
    (∀ (sha1 : String → String) (tf : String → Except String String)
       (model : String) (glossary : Glossary) (pf : String)
       (cache0 : CacheMap) (data : List JValue),
       (∀ s, ∃ e, tf s = .error e) →
       (∀ v ∈ data, ∃ c, v = JValue.obj c) →
       (∃ v ∈ data, ∃ c, v = JValue.obj c ∧ cardTriggers sha1 model cache0 c = true) →
       ∃ e, process_file sha1 tf model glossary pf cache0 (.ok (.arr data)) = .error e) := by
  refine ⟨rfl, ?_, ?_, ?_⟩
  · intro f hf
    obtain ⟨e, heq⟩ := translateLoop_all_fail f 5 1 "" [] []
      (fun a h1 h2 => hf a h1 (by show a ≤ 5; omega))
    have h0 : translate_via_openai f =
        ⟨.error e, [] ++ List.range' 1 5,
         [] ++ (List.range' 1 5).map (fun a => RETRY_BACKOFF * 2 ^ (a - 1))⟩ := heq
    rw [h0]
    refine ⟨⟨e, rfl⟩, rfl, ?_, ?_, ?_⟩
    · show [RETRY_BACKOFF * 2 ^ 0, RETRY_BACKOFF * 2 ^ 1, RETRY_BACKOFF * 2 ^ 2,
        RETRY_BACKOFF * 2 ^ 3, RETRY_BACKOFF * 2 ^ 4] = [2, 4, 8, 16, 32]
      norm_num [RETRY_BACKOFF]
    · rfl
    · show List.Chain' (· < ·) [RETRY_BACKOFF * 2 ^ 0, RETRY_BACKOFF * 2 ^ 1,
        RETRY_BACKOFF * 2 ^ 2, RETRY_BACKOFF * 2 ^ 3, RETRY_BACKOFF * 2 ^ 4]
      simp [List.chain'_cons, RETRY_BACKOFF]
      norm_num
  · intro f e h a h1 h2
    exact translateLoop_error_all_fail f 5 1 "" [] [] e h a h1
      (by have hh : a ≤ 5 := h2; omega)
  · intro sha1 tf model glossary pf cache0 data htf hobj hex
    obtain ⟨e, he⟩ := processCards_trigger_err htf data [] (initState cache0) hobj hex
    exact ⟨e, by simp only [process_file]; rw [he]⟩

/-- Witness for C2: a service that always fails is tried exactly five times
with backoff sleeps 2, 4, 8, 16, 32 seconds, and a file containing one
translatable record aborts with no result. -/
theorem c2_witness :
    (translate_via_openai (fun _ => Except.error "boom")).tried = [1, 2, 3, 4, 5] ∧
    (translate_via_openai (fun _ => Except.error "boom")).sleeps = [2, 4, 8, 16, 32] ∧
    (process_file (fun s => s) (fun _ => Except.error "boom") "m" [] "p" []
        (.ok (.arr [.obj [("name", .str "x")]]))).toOption = none := by
  have h := c2_retry_exhaustion.2.1 (fun _ => Except.error "boom")
    (fun a _ _ => ⟨"boom", rfl⟩)
  refine ⟨h.2.1, h.2.2.1, ?_⟩
  obtain ⟨e, he⟩ := c2_retry_exhaustion.2.2.2 (fun s => s) (fun _ => Except.error "boom")
    "m" [] "p" [] [.obj [("name", .str "x")]] (fun s => ⟨"boom", rfl⟩)
    (by
      intro v hv
      simp only [List.mem_singleton] at hv
      exact ⟨[("name", .str "x")], hv⟩)
    ⟨.obj [("name", .str "x")], by simp, [("name", .str "x")], rfl, by decide⟩
  rw [he]
  rfl

/-! ## Converter claims (C5, C8) -/

/-- The records contributed by one well-formed top-level JSON value: a dict
contributes itself, a list its elements. -/
def topItems : JValue → List JValue
  | .obj fs => [.obj fs]
  | .arr xs => xs
  | _ => []

/-- The CSV cells of one record (empty for a non-object, which in the code
would instead raise). -/
def itemCells : JValue → List JValue
  | .obj fs => rowCells fs
  | _ => []

/-- The records contributed by one directory entry, after the `.json` name
filter, the decode-error skip and the unsupported-structure skip. -/
def fileItems : String × Except String JValue → List JValue
  | (name, parsed) =>
    if endswith name ".json" then
      match parsed with
      | .ok v => topItems v
      | .error _ => []
    else []

/-- All records contributed by a directory listing, in order. -/
def filesItems : List (String × Except String JValue) → List JValue
  | [] => []
  | nf :: rest => fileItems nf ++ filesItems rest

/-- Modelled from the spec: one CSV row per object in which each configured
field holds that object's value verbatim, with absent fields materialised as
the empty string. -/
def specRow (item : Card) : List JValue :=
  FIELDS.map (fun f =>
    match dictGet item f with
    | some v => v
    | none => .str "")

theorem itemRows_all_obj :
    ∀ (xs : List JValue), (∀ x ∈ xs, ∃ fs, x = JValue.obj fs) →
      itemRows xs = .ok (xs.map itemCells) := by
  intro xs
  induction xs with
  | nil => intro _; rfl
  | cons v vs ih =>
    intro h
    obtain ⟨fs, hv⟩ := h v (List.mem_cons_self v vs)
    subst hv
    rw [itemRows, itemRow, ih (fun x hx => h x (List.mem_cons_of_mem _ hx))]
    rfl

/-- C5: on a directory whose `.json` files each parse to a single JSON
object or to a list of JSON objects, `json_to_csv` writes the CSV with the
fixed header row and, in file order, one row per object; each row holds, for
every configured field, the object's value verbatim, with absent fields
materialised as the empty string. -/
theorem c5_json_to_csv_verbatim :
    (∀ files : List (String × Except String JValue),
      (∀ nf ∈ files, endswith nf.1 ".json" = true ∧
        ∃ v, nf.2 = .ok v ∧
          ((∃ fs, v = JValue.obj fs) ∨
           (∃ xs, v = JValue.arr xs ∧ ∀ x ∈ xs, ∃ fs, x = JValue.obj fs))) →
      json_to_csv files = .ok (FIELDS, (filesItems files).map itemCells)) ∧
    (∀ item : Card, rowCells item = specRow item) := by
  constructor
  · intro files
    induction files with
    | nil => intro _; rfl
    | cons nf rest ih =>
      intro h
      obtain ⟨hend, v, hv, hshape⟩ := h nf (List.mem_cons_self nf rest)
      obtain ⟨name, parsed⟩ := nf
      simp only at hv
      subst hv
      have hrest := ih (fun x hx => h x (List.mem_cons_of_mem _ hx))
      rcases hshape with ⟨fs, rfl⟩ | ⟨xs, rfl, hxs⟩
      · rw [json_to_csv, if_pos hend, hrest]
        simp [filesItems, fileItems, hend, topItems, itemCells, Except.map]
      · rw [json_to_csv, if_pos hend, itemRows_all_obj xs hxs, hrest]
        simp [filesItems, fileItems, hend, topItems, Except.map]
  · intro item
    refine congrArg (fun g => List.map g FIELDS) ?_
    funext f
    cases dictGet item f <;> rfl

theorem itemRows_err :
    ∀ (xs : List JValue), (∃ v ∈ xs, ∀ fs, v ≠ JValue.obj fs) →
      ∃ e, itemRows xs = .error e := by
  intro xs
  induction xs with
  | nil =>
    intro hex
    simp at hex
  | cons v vs ih =>
    intro hex
    obtain ⟨w, hw, hnw⟩ := hex
    rcases List.mem_cons.mp hw with rfl | hw'
    · cases w with
      | obj fs => exact absurd rfl (hnw fs)
      | null => exact ⟨_, rfl⟩
      | bool b => exact ⟨_, rfl⟩
      | num q => exact ⟨_, rfl⟩
      | str s => exact ⟨_, rfl⟩
      | arr ys => exact ⟨_, rfl⟩
    · obtain ⟨e, he⟩ := ih ⟨w, hw', hnw⟩
      cases hv : itemRow v with
      | error e0 => exact ⟨e0, by rw [itemRows, hv]⟩
      | ok r => exact ⟨e, by rw [itemRows, hv, he]; rfl⟩

/-- C8: if some `.json` source file parses to a top-level list containing a
non-object element, `json_to_csv` raises an uncaught exception and aborts
without writing the CSV; by contrast the logged-and-skipped handling covers
exactly JSON decode errors and non-dict/non-list top-level values, which do
not abort the run. -/
theorem c8_nonobject_element_aborts :
    (∀ (files : List (String × Except String JValue)) (name : String) (xs : List JValue),
       (name, Except.ok (JValue.arr xs)) ∈ files →
       endswith name ".json" = true →
       (∃ v ∈ xs, ∀ fs, v ≠ JValue.obj fs) →
       ∃ e, json_to_csv files = .error e) ∧
    (∀ (name e : String) (rest : List (String × Except String JValue)),
       endswith name ".json" = true →
       json_to_csv ((name, Except.error e) :: rest) = json_to_csv rest) ∧
    (∀ (name : String) (v : JValue) (rest : List (String × Except String JValue)),
       endswith name ".json" = true →
       (∀ fs, v ≠ JValue.obj fs) → (∀ xs, v ≠ JValue.arr xs) →
       json_to_csv ((name, Except.ok v) :: rest) = json_to_csv rest) := by
  refine ⟨?_, ?_, ?_⟩
  · intro files
    induction files with
    | nil =>
      intro name xs hmem _ _
      simp at hmem
    | cons nf rest ih =>
      intro name xs hmem hend hex
      rcases List.mem_cons.mp hmem with heq | hmem'
      · obtain ⟨e, he⟩ := itemRows_err xs hex
        rw [← heq]
        exact ⟨e, by simp only [json_to_csv, hend, if_true, he]⟩
      · obtain ⟨e, he⟩ := ih name xs hmem' hend hex
        obtain ⟨n, p⟩ := nf
        by_cases hje : endswith n ".json" = true
        · cases p with
          | error e0 => exact ⟨e, by simp only [json_to_csv, hje, if_true]; exact he⟩
          | ok v =>
            cases v with
            | obj fs => exact ⟨e, by simp only [json_to_csv, hje, if_true, he]; rfl⟩
            | arr ys =>
              cases hys : itemRows ys with
              | error e1 => exact ⟨e1, by simp only [json_to_csv, hje, if_true, hys]⟩
              | ok rs => exact ⟨e, by simp only [json_to_csv, hje, if_true, hys, he]; rfl⟩
            | null => exact ⟨e, by simp only [json_to_csv, hje, if_true]; exact he⟩
            | bool b => exact ⟨e, by simp only [json_to_csv, hje, if_true]; exact he⟩
            | num q => exact ⟨e, by simp only [json_to_csv, hje, if_true]; exact he⟩
            | str s => exact ⟨e, by simp only [json_to_csv, hje, if_true]; exact he⟩
        · exact ⟨e, by
            simp only [Bool.not_eq_true] at hje
            simp only [json_to_csv, hje, Bool.false_eq_true, if_false]
            exact he⟩
  · intro name e rest hend
    simp only [json_to_csv, hend, if_true]
  · intro name v rest hend hno hna
    cases v with
    | obj fs => exact absurd rfl (hno fs)
    | arr xs => exact absurd rfl (hna xs)
    | null => simp only [json_to_csv, hend, if_true]
    | bool b => simp only [json_to_csv, hend, if_true]
    | num q => simp only [json_to_csv, hend, if_true]
    | str s => simp only [json_to_csv, hend, if_true]

/-- Witness for C5: a directory with one single-object file and one
two-object list file produces the fixed header plus three rows in file
order, values verbatim and absent fields as empty strings. -/
theorem c5_witness :
    json_to_csv
      [("a.json", .ok (.obj [("code", .str "01"), ("name", .str "Card A")])),
       ("b.json", .ok (.arr [.obj [("name", .str "N")], .obj []]))] =
    .ok (FIELDS,
      [[.str "01", .str "Card A", .str "", .str "", .str "", .str "", .str "", .str ""],
       [.str "", .str "N", .str "", .str "", .str "", .str "", .str "", .str ""],
       [.str "", .str "", .str "", .str "", .str "", .str "", .str "", .str ""]]) := by
  have h := c5_json_to_csv_verbatim.1
    [("a.json", .ok (.obj [("code", .str "01"), ("name", .str "Card A")])),
     ("b.json", .ok (.arr [.obj [("name", .str "N")], .obj []]))]
    (by
      intro nf hnf
      rcases List.mem_cons.mp hnf with rfl | hnf'
      · exact ⟨by decide, _, rfl, Or.inl ⟨_, rfl⟩⟩
      · rcases List.mem_cons.mp hnf' with rfl | hnf''
        · refine ⟨by decide, _, rfl, Or.inr ⟨_, rfl, ?_⟩⟩
          intro x hx
          rcases List.mem_cons.mp hx with rfl | hx'
          · exact ⟨_, rfl⟩
          · rcases List.mem_cons.mp hx' with rfl | hx''
            · exact ⟨_, rfl⟩
            · simp at hx''
        · simp at hnf'')
  rw [h]
  rfl

/-- Witness for C8: a `.json` file parsing to a list that contains a string
element makes the conversion abort with no CSV value. -/
theorem c8_witness :
    (json_to_csv [("cards.json", .ok (.arr [JValue.str "oops"]))]).toOption = none := by
  obtain ⟨e, he⟩ := c8_nonobject_element_aborts.1
    [("cards.json", .ok (.arr [JValue.str "oops"]))] "cards.json" [JValue.str "oops"]
    (List.mem_singleton.mpr rfl) (by decide)
    ⟨JValue.str "oops", List.mem_singleton.mpr rfl, fun fs h => JValue.noConfusion h⟩
  rw [he]
  rfl

/-! ## Cache idempotence (C1) and key construction (C9) -/

theorem cacheGet_cacheSet_self (c : CacheMap) (k src tgt model : String) :
    cacheGet (cacheSet c k src tgt model) k = some tgt := by
  induction c with
  | nil => simp [cacheSet, cacheGet]
  | cons hd tl ih =>
    obtain ⟨k0, e0⟩ := hd
    by_cases h : k0 = k
    · simp [cacheSet, cacheGet, h]
    · simp [cacheSet, cacheGet, h, ih]

/-- A stand-in digest for concrete runs; the behaviour under test does not
depend on the digest function. -/
def idHash : String → String := fun s => s

/-- A service whose translation of every text is the empty string. -/
def tfEmpty : String → Except String String := fun _ => .ok ""

/-- C1 (amended): once a (model, field, text) triple's translation has been
produced and stored, processing the same triple again yields a cache hit
that reuses the stored value with no network call — so the second result
equals the first — *provided the stored translation is non-empty*: the
code tests the fetched value for truthiness (`if cached:`), so an empty
stored translation is treated as a miss and triggers a new network call. -/
theorem c1_cache_idempotent :
    (∀ (sha1 : String → String) (tf : String → Except String String)
       (model : String) (glossary : Glossary) (pf : String)
       (card cardOut : Card) (st : RunState) (field s t0 : String)
       (c' : Card) (st' : RunState),
       (dictGet card field).getD (.str "") = .str s →
       skipSrc (.str s) = false →
       cacheHit (cacheGet st.cache (cacheKey sha1 model field s)) = false →
       tf s = .ok t0 →
       processField sha1 tf model glossary pf card cardOut st field = .ok (c', st') →
       cacheGet st'.cache (cacheKey sha1 model field s) =
         some (apply_glossary_post t0 glossary) ∧
       dictGet c' (field ++ "_pt") = some (.str (apply_glossary_post t0 glossary)) ∧
       st'.netCalls = st.netCalls ++ [s]) ∧
    (∀ (sha1 : String → String) (tf : String → Except String String)
       (model : String) (glossary : Glossary) (pf : String)
       (card cardOut : Card) (st : RunState) (field s t : String),
       (dictGet card field).getD (.str "") = .str s →
       skipSrc (.str s) = false →
       cacheGet st.cache (cacheKey sha1 model field s) = some t →
       t ≠ "" →
       ∃ c' st', processField sha1 tf model glossary pf card cardOut st field = .ok (c', st') ∧
         st'.netCalls = st.netCalls ∧ st'.calls = st.calls ∧ st'.cache = st.cache ∧
         dictGet c' (field ++ "_pt") = some (.str t)) := by
  constructor
  · intro sha1 tf model glossary pf card cardOut st field s t0 c' st' hsrc hsk hch htf h
    rw [processField_miss_ok sha1 tf model glossary pf card cardOut st field s t0
      hsrc hsk hch htf] at h
    injection h with h'
    injection h' with h1 h2
    refine ⟨?_, ?_, ?_⟩
    · rw [← h2]
      exact cacheGet_cacheSet_self st.cache (cacheKey sha1 model field s) s
        (apply_glossary_post t0 glossary) model
    · rw [← h1]
      show dictGet (dictSet cardOut (field ++ "_pt") (.str (apply_glossary_post t0 glossary)))
        (field ++ "_pt") = _
      rw [dictGet_dictSet]
      simp
    · rw [← h2]
  · intro sha1 tf model glossary pf card cardOut st field s t hsrc hsk hcg ht
    have ht' : (t == "") = false := beq_eq_false_iff_ne.mpr ht
    have heq := processField_hit sha1 tf model glossary pf card cardOut st field s t
      hsrc hsk hcg ht'
    refine ⟨_, _, heq, rfl, rfl, rfl, ?_⟩
    show dictGet (dictSet cardOut (field ++ "_pt") (.str t)) (field ++ "_pt") = _
    rw [dictGet_dictSet]
    simp

/-- Counterexample for C1 as stated: a stored *empty* translation is not a
cache hit.  The first processing of the field sends one network call and
stores `""` under the key; processing the same triple again sends a second
network call (the network-call log grows to two entries). -/
theorem c1_counterexample :
    ((processField idHash tfEmpty "m" [] "p" [("name", JValue.str "x")]
        [("name", JValue.str "x")] (initState []) "name").map
      (fun r => r.2.netCalls)) = .ok ["x"] ∧
    ((processField idHash tfEmpty "m" [] "p" [("name", JValue.str "x")]
        [("name", JValue.str "x")] (initState []) "name").map
      (fun r => cacheGet r.2.cache "m:name:x")) = .ok (some "") ∧
    ((processField idHash tfEmpty "m" [] "p" [("name", JValue.str "x")]
        [("name", JValue.str "x")] (initState []) "name").bind
      (fun r => processField idHash tfEmpty "m" [] "p" [("name", JValue.str "x")]
        r.1 r.2 "name")).map (fun r => r.2.netCalls) = .ok ["x", "x"] := by
  exact ⟨rfl, rfl, rfl⟩

/-- Witness for C1: with a non-empty stored translation "T" for the triple,
reprocessing the field is a hit: no network call, and the stored "T" is
written to the output record. -/
theorem c1_witness :
    (processField idHash (fun _ => Except.error "offline") "m" [] "p"
        [("name", JValue.str "x")] [("name", JValue.str "x")]
        { initState [] with cache := [("m:name:x", ⟨"x", "T", "m"⟩)] } "name").map
      (fun r => (r.2.netCalls, dictGet r.1 ("name" ++ "_pt"))) =
    .ok ([], some (.str "T")) := by
  obtain ⟨c', st', heq, hnet, _, _, hget⟩ := c1_cache_idempotent.2 idHash
    (fun _ => Except.error "offline") "m" [] "p"
    [("name", JValue.str "x")] [("name", JValue.str "x")]
    { initState [] with cache := [("m:name:x", ⟨"x", "T", "m"⟩)] } "name" "x" "T"
    rfl (by decide) rfl (by decide)
  rw [heq]
  show Except.ok (st'.netCalls, dictGet c' ("name" ++ "_pt")) = .ok ([], some (.str "T"))
  rw [hnet, hget]
  rfl

/-- C9: the cache key is the digest of the single string joining model,
field and source text with `:` separators, so two distinct triples whose
joined strings coincide produce the same key and share one cache entry —
for every digest function, a value stored under ("m:a", "b", "c") is hit
when processing ("m", "a:b", "c"), with no network call. -/
theorem c9_cache_key_collision :
    (∀ (sha1 : String → String) (model field src : String),
       cacheKey sha1 model field src = sha1 (model ++ ":" ++ field ++ ":" ++ src)) ∧
    (∀ (sha1 : String → String) (m1 f1 s1 m2 f2 s2 : String),
       m1 ++ ":" ++ f1 ++ ":" ++ s1 = m2 ++ ":" ++ f2 ++ ":" ++ s2 →
       cacheKey sha1 m1 f1 s1 = cacheKey sha1 m2 f2 s2) ∧
    (("m:a", "b", "c") ≠ (("m", "a:b", "c") : String × String × String)) ∧
    (∀ (sha1 : String → String) (tf : String → Except String String)
       (glossary : Glossary) (pf : String) (cardOut : Card) (st : RunState) (t : String),
       cacheGet st.cache (cacheKey sha1 "m:a" "b" "c") = some t → t ≠ "" →
       ∃ c' st',
         processField sha1 tf "m" glossary pf [("a:b", JValue.str "c")] cardOut st "a:b" =
           .ok (c', st') ∧
         st'.netCalls = st.netCalls ∧
         dictGet c' ("a:b" ++ "_pt") = some (.str t)) := by
  refine ⟨fun _ _ _ _ => rfl, ?_, by decide, ?_⟩
  · intro sha1 m1 f1 s1 m2 f2 s2 h
    exact congrArg sha1 h
  · intro sha1 tf glossary pf cardOut st t hcg ht
    have ht' : (t == "") = false := beq_eq_false_iff_ne.mpr ht
    have heq := processField_hit sha1 tf "m" glossary pf [("a:b", JValue.str "c")] cardOut st
      "a:b" "c" t rfl (by decide) hcg ht'
    refine ⟨_, _, heq, rfl, ?_⟩
    show dictGet (dictSet cardOut ("a:b" ++ "_pt") (.str t)) ("a:b" ++ "_pt") = _
    rw [dictGet_dictSet]
    simp

/-- Witness for C9: with the identity stand-in digest, a value stored under
the key of ("m:a", "b", "c") is returned for ("m", "a:b", "c"). -/
theorem c9_witness :
    (processField idHash (fun _ => Except.error "offline") "m" [] "p"
        [("a:b", JValue.str "c")] [("a:b", JValue.str "c")]
        { initState [] with cache := [("m:a:b:c", ⟨"c", "T", "m:a"⟩)] } "a:b").map
      (fun r => (r.2.netCalls, dictGet r.1 ("a:b" ++ "_pt"))) =
    .ok ([], some (.str "T")) := by
  obtain ⟨c', st', heq, hnet, hget⟩ := c9_cache_key_collision.2.2.2 idHash
    (fun _ => Except.error "offline") [] "p" [("a:b", JValue.str "c")]
    { initState [] with cache := [("m:a:b:c", ⟨"c", "T", "m:a"⟩)] } "T" rfl (by decide)
  rw [heq]
  show Except.ok (st'.netCalls, dictGet c' ("a:b" ++ "_pt")) = .ok ([], some (.str "T"))
  rw [hnet, hget]
  rfl

/-! ## Output-record frame property (C7) -/

theorem processField_frame {sha1 : String → String} {tf : String → Except String String}
    {model : String} {glossary : Glossary} {pf : String}
    {card cardOut : Card} {st : RunState} {field : String} {c' : Card} {st' : RunState}
    (h : processField sha1 tf model glossary pf card cardOut st field = .ok (c', st')) :
    (c' = cardOut ∧ st'.csvRows = st.csvRows) ∨
    (∃ s t, c' = dictSet cardOut (field ++ "_pt") (.str t) ∧
      st'.csvRows = st.csvRows ++ [⟨(dictGet card "code").getD (.str ""), field, s, t, pf⟩]) := by
  rcases processField_ok_spec sha1 tf model glossary pf card cardOut st field c' st' h with
    ⟨_, h1, h2⟩ | ⟨s, t, _, _, _, _, h1, h2⟩ | ⟨s, t0, _, _, _, _, h1, h2⟩
  · exact Or.inl ⟨h1, by rw [h2]⟩
  · exact Or.inr ⟨s, t, h1, by rw [h2]⟩
  · exact Or.inr ⟨s, apply_glossary_post t0 glossary, h1, by rw [h2]⟩

theorem processFields_frame {sha1 : String → String} {tf : String → Except String String}
    {model : String} {glossary : Glossary} {pf : String} (card : Card) :
    ∀ (fields : List String) (cardOut : Card) (st : RunState) (c' : Card) (st' : RunState),
      processFields sha1 tf model glossary pf card fields cardOut st = .ok (c', st') →
      ∃ rows', st'.csvRows = st.csvRows ++ rows' ∧
        (∀ row ∈ rows', row.field ∈ fields) ∧
        (∀ k, (∀ row ∈ rows', k ≠ row.field ++ "_pt") → dictGet c' k = dictGet cardOut k) ∧
        (∀ k v, dictGet c' k = some v →
          dictGet cardOut k = some v ∨
          ∃ row ∈ rows', k = row.field ++ "_pt" ∧ v = .str row.pt) := by
  intro fields
  induction fields with
  | nil =>
    intro cardOut st c' st' h
    injection h with h'
    injection h' with h1 h2
    subst h1
    subst h2
    exact ⟨[], by simp, by simp, fun k _ => rfl, fun k v hv => Or.inl hv⟩
  | cons f fs ih =>
    intro cardOut st c' st' h
    rw [processFields] at h
    cases hpf : processField sha1 tf model glossary pf card cardOut st f with
    | error e => rw [hpf] at h; exact Except.noConfusion h
    | ok p =>
      obtain ⟨c1, st1⟩ := p
      rw [hpf] at h
      obtain ⟨rows2, hcsv2, hmem2, hframe2, hadd2⟩ := ih c1 st1 c' st' h
      rcases processField_frame hpf with ⟨hc1, hrows1⟩ | ⟨s, t, hc1, hrows1⟩
      · subst hc1
        refine ⟨rows2, by rw [hcsv2, hrows1],
          fun row hr => List.mem_cons_of_mem f (hmem2 row hr), hframe2, ?_⟩
        intro k v hv
        rcases hadd2 k v hv with hout | ⟨row, hr, hkf, hvt⟩
        · exact Or.inl hout
        · exact Or.inr ⟨row, hr, hkf, hvt⟩
      · subst hc1
        refine ⟨⟨(dictGet card "code").getD (.str ""), f, s, t, pf⟩ :: rows2, ?_, ?_, ?_, ?_⟩
        · rw [hcsv2, hrows1]
          simp
        · intro row hr
          rcases List.mem_cons.mp hr with rfl | hr'
          · exact List.mem_cons_self _ _
          · exact List.mem_cons_of_mem f (hmem2 row hr')
        · intro k hk
          have hk1 : k ≠ f ++ "_pt" :=
            hk ⟨(dictGet card "code").getD (.str ""), f, s, t, pf⟩ (List.mem_cons_self _ _)
          rw [hframe2 k (fun row hr => hk row (List.mem_cons_of_mem _ hr)),
            dictGet_dictSet, if_neg hk1]
        · intro k v hv
          rcases hadd2 k v hv with hout | ⟨row, hr, hkf, hvt⟩
          · rw [dictGet_dictSet] at hout
            by_cases hkf : k = f ++ "_pt"
            · rw [if_pos hkf] at hout
              injection hout with hv'
              exact Or.inr ⟨⟨(dictGet card "code").getD (.str ""), f, s, t, pf⟩,
                List.mem_cons_self _ _, hkf, hv'.symm⟩
            · rw [if_neg hkf] at hout
              exact Or.inl hout
          · exact Or.inr ⟨row, List.mem_cons_of_mem _ hr, hkf, hvt⟩

/-- C7 (amended): the output record for an input record is a fresh dict
that agrees with the input on every key *except* the `<field>_pt` keys of
the fields that were translated in this pass (which are set — and, if such
a key already existed on the input record, overwritten — to the translated
value recorded in the audit rows); the only keys added are `<field>_pt`
keys of translated fields, carrying exactly the audited translations. -/
theorem c7_output_record_frame :
    ∀ (sha1 : String → String) (tf : String → Except String String)
      (model : String) (glossary : Glossary) (pf : String)
      (card : Card) (st : RunState) (cardOut : Card) (st' : RunState),
      processCard sha1 tf model glossary pf (.obj card) st = .ok (cardOut, st') →
      ∃ rows', st'.csvRows = st.csvRows ++ rows' ∧
        (∀ row ∈ rows', row.field ∈ TRANSLATABLE_FIELDS) ∧
        (∀ k, (∀ row ∈ rows', k ≠ row.field ++ "_pt") → dictGet cardOut k = dictGet card k) ∧
        (∀ k v, dictGet cardOut k = some v →
          dictGet card k = some v ∨
          ∃ row ∈ rows', k = row.field ++ "_pt" ∧ v = .str row.pt) := by
  intro sha1 tf model glossary pf card st cardOut st' h
  exact processFields_frame card TRANSLATABLE_FIELDS card st cardOut st' h

/-- A service that translates every text as "NEW". -/
def tfNew : String → Except String String := fun _ => .ok "NEW"

/-- Counterexample for C7 as stated: an input record that already carries a
`name_pt` key does *not* agree with its output record on that original key —
translating `name` overwrites the pre-existing `name_pt` value. -/
theorem c7_counterexample :
    ((processCard idHash tfNew "m" [] "p"
        (.obj [("name", JValue.str "Doom"), ("name_pt", JValue.str "old")])
        (initState [])).map (fun r => dictGet r.1 "name_pt")) = .ok (some (.str "NEW")) ∧
    dictGet [("name", JValue.str "Doom"), ("name_pt", JValue.str "old")] "name_pt" =
      some (.str "old") ∧
    JValue.str "NEW" ≠ JValue.str "old" := by
  refine ⟨rfl, rfl, ?_⟩
  intro h
  injection h with h'
  exact absurd h' (by decide)

/-- Witness for C7: a record whose translatable fields are all absent comes
out agreeing with the input everywhere (no audit rows, nothing added). -/
theorem c7_witness :
    ((processCard idHash (fun _ => Except.error "offline") "m" [] "p"
        (.obj [("code", JValue.str "01")]) (initState [])).map
      (fun r => (dictGet r.1 "code", dictGet r.1 "name"))) =
    .ok (some (.str "01"), none) := by
  obtain ⟨rows', hcsv, hmem, hframe, hadd⟩ := c7_output_record_frame idHash
    (fun _ => Except.error "offline") "m" [] "p" [("code", JValue.str "01")]
    (initState []) _ _ rfl
  have hrows : rows' = [] := by simpa using hcsv.symm
  have h1 := hframe "code" (by simp [hrows])
  have h2 := hframe "name" (by simp [hrows])
  refine congrArg Except.ok ?_
  show (dictGet _ "code", dictGet _ "name") = (some (JValue.str "01"), none)
  rw [h1, h2]
  rfl

end Arkham
